import Mathlib

/-
Verification development for the aihwkit repository example
`examples/16_mnist_gan.py`, a script that trains a GAN on MNIST using
analog simulation layers for the generator.

The script is shallowly embedded below:
* the training loop is embedded as a function producing the trace of
  observable events (optimizer calls, loss computations, noise sampling,
  snapshot writes) it performs, with the global step counter threaded
  explicitly;
* the network architectures are embedded as lists of layer descriptors;
* `main` is embedded both as an event trace (for ordering and
  file-system-effect properties) and as a sequence of fallible external
  calls in the `Except` monad (for error-propagation properties);
* the image-grid helper is embedded over the flattened tensor data as a
  list, with `view` as exact chunking;
* the snapshot-filename sort key is embedded over Python strings
  modelled as `List Char`, so that it is executable by `decide`.
-/

namespace MnistGan

/-- Global constant `SEED = 1` from the script. -/
def SEED : Nat := 1

/-- Global constant `N_EPOCHS = 200` from the script. -/
def N_EPOCHS : Nat := 200

/-- Global constant `Z_DIM = 64` from the script. -/
def Z_DIM : Nat := 64

/-- Global constant `DISPLAY_STEP = 500` from the script. -/
def DISPLAY_STEP : Nat := 500

/-- Global constant `BATCH_SIZE = 256` from the script. -/
def BATCH_SIZE : Nat := 256

/-- Observable events of `training_loop`.  `noiseSample n z` records a call
`get_noise(n, z, device)`; `snapshot s` records the call
`store_tensor_images(fake, 'fake_images', cur_step)` at `cur_step = s`. -/
inductive Event where
  | discZeroGrad : Event
  | noiseSample (n_samples z_dim : Nat) : Event
  | discLossComputed : Event
  | discBackward : Event
  | discStep : Event
  | genZeroGrad : Event
  | genLossComputed : Event
  | genBackward : Event
  | genStep : Event
  | printProgress (step : Nat) : Event
  | snapshot (step : Nat) : Event
deriving DecidableEq

/-- Events of one iteration of the inner `for real, _ in dataloader` loop of
`training_loop`, in source order: discriminator update
(`disc_opt.zero_grad()`; `get_disc_loss` which calls `get_noise` with
`Z_DIM`; `disc_loss.backward()`; `disc_opt.step()`), then generator update
(`gen_opt.zero_grad()`; `get_gen_loss` which calls `get_noise` with
`Z_DIM`; `gen_loss.backward()`; `gen_opt.step()`), then the visualization
block guarded by `cur_step % display_step == 0 and cur_step > 0`. -/
def batchEvents (display_step cur_step cur_batch_size : Nat) : List Event :=
  [Event.discZeroGrad,
   Event.noiseSample cur_batch_size Z_DIM,
   Event.discLossComputed,
   Event.discBackward,
   Event.discStep,
   Event.genZeroGrad,
   Event.noiseSample cur_batch_size Z_DIM,
   Event.genLossComputed,
   Event.genBackward,
   Event.genStep] ++
  (if cur_step % display_step = 0 ∧ 0 < cur_step then
    [Event.printProgress cur_step,
     Event.noiseSample cur_batch_size Z_DIM,
     Event.snapshot cur_step]
   else [])

/-- One epoch of `training_loop`: iterate over the dataloader batches
(given by their sizes), threading the global step counter `cur_step`,
which is incremented once at the end of each batch. -/
def runBatches (display_step : Nat) : Nat → List Nat → List Event × Nat
  | cur_step, [] => ([], cur_step)
  | cur_step, b :: bs =>
      let rest := runBatches display_step (cur_step + 1) bs
      (batchEvents display_step cur_step b ++ rest.1, rest.2)

/-- The `for _ in range(n_epochs)` loop of `training_loop`; `cur_step` is
never reset between epochs. -/
def runEpochs (display_step : Nat) (batches : List Nat) : Nat → Nat → List Event × Nat
  | 0, cur_step => ([], cur_step)
  | n + 1, cur_step =>
      let e := runBatches display_step cur_step batches
      let rest := runEpochs display_step batches n e.2
      (e.1 ++ rest.1, rest.2)

/-- The event trace of `training_loop(gen, disc, gen_opt, disc_opt,
criterion, dataloader, n_epochs, display_step)`, where `batches` lists the
sizes of the batches the dataloader yields in one epoch and `cur_step`
starts at `0`. -/
def training_loop (n_epochs display_step : Nat) (batches : List Nat) : List Event :=
  (runEpochs display_step batches n_epochs 0).1

/-- The optimizer-update events of one batch as the claim enumerates them. -/
def isUpdateEvent : Event → Bool
  | Event.discZeroGrad => true
  | Event.discLossComputed => true
  | Event.discBackward => true
  | Event.discStep => true
  | Event.genZeroGrad => true
  | Event.genLossComputed => true
  | Event.genBackward => true
  | Event.genStep => true
  | _ => false

/-- The canonical per-batch update pattern: the full discriminator update
strictly before the full generator update. -/
def updatePattern : List Event :=
  [Event.discZeroGrad, Event.discLossComputed, Event.discBackward, Event.discStep,
   Event.genZeroGrad, Event.genLossComputed, Event.genBackward, Event.genStep]

/-- Layer descriptors for the modules the script composes.
`analogLinear` is `aihwkit.nn.AnalogLinear`; `nnLinear` is the standard
dense `torch.nn.Linear`; the remaining constructors are the activation
and normalization modules used by the script. -/
inductive Layer where
  | analogLinear (in_dim out_dim : Nat) : Layer
  | nnLinear (in_dim out_dim : Nat) : Layer
  | batchNorm1d (dim : Nat) : Layer
  | relu : Layer
  | leakyRelu : Layer
  | sigmoid : Layer
deriving DecidableEq

/-- Embedding of `get_generator_block(input_dim, output_dim)`:
`AnalogSequential(AnalogLinear(input_dim, output_dim, bias=True,
rpu_config=RPU_CONFIG), nn.BatchNorm1d(output_dim),
nn.ReLU(inplace=True))`, flattened to its layer list. -/
def get_generator_block (input_dim output_dim : Nat) : List Layer :=
  [Layer.analogLinear input_dim output_dim,
   Layer.batchNorm1d output_dim,
   Layer.relu]

/-- Embedding of the `Generator.__init__` network `self.gen`: four
generator blocks followed by a final `AnalogLinear(hidden_dim * 8,
im_dim)` and `nn.Sigmoid()`, flattened to its layer list. -/
def generator_layers (z_dim im_dim hidden_dim : Nat) : List Layer :=
  get_generator_block z_dim hidden_dim ++
  get_generator_block hidden_dim (hidden_dim * 2) ++
  get_generator_block (hidden_dim * 2) (hidden_dim * 4) ++
  get_generator_block (hidden_dim * 4) (hidden_dim * 8) ++
  [Layer.analogLinear (hidden_dim * 8) im_dim, Layer.sigmoid]

/-- Embedding of `get_discriminator_block(input_dim, output_dim)`:
`nn.Sequential(nn.Linear(input_dim, output_dim), nn.LeakyReLU(2e-1,
inplace=True))`, flattened to its layer list. -/
def get_discriminator_block (input_dim output_dim : Nat) : List Layer :=
  [Layer.nnLinear input_dim output_dim, Layer.leakyRelu]

/-- Embedding of the `Discriminator.__init__` network `self.disc`: three
discriminator blocks followed by a final `nn.Linear(hidden_dim, 1)`,
flattened to its layer list. -/
def discriminator_layers (im_dim hidden_dim : Nat) : List Layer :=
  get_discriminator_block im_dim (hidden_dim * 4) ++
  get_discriminator_block (hidden_dim * 4) (hidden_dim * 2) ++
  get_discriminator_block (hidden_dim * 2) hidden_dim ++
  [Layer.nnLinear hidden_dim 1]

/-- A layer is a linear transformation when it is either an analog or a
standard dense linear layer. -/
def isLinearTransform : Layer → Bool
  | Layer.analogLinear _ _ => true
  | Layer.nnLinear _ _ => true
  | _ => false

/-- The torch device the script computes with: `cuda` if the aihwkit CUDA
backend is compiled, else `cpu`. -/
inductive TorchDevice where
  | cpu : TorchDevice
  | cuda : TorchDevice
deriving DecidableEq

/-- The distribution a freshly sampled tensor was drawn from;
`torch.randn` samples from the standard normal distribution. -/
inductive Distribution where
  | stdNormal : Distribution
deriving DecidableEq

/-- A tensor as the noise-sampling claims observe it: its shape, the
distribution its entries were drawn from, and its device. -/
structure NoiseTensor where
  shape : List Nat
  dist : Distribution
  device : TorchDevice
deriving DecidableEq

/-- Embedding of `torch.randn(n_samples, z_dim)`: a fresh tensor of shape
`(n_samples, z_dim)` with standard-normal entries on the CPU. -/
def torch_randn (n_samples z_dim : Nat) : NoiseTensor :=
  ⟨[n_samples, z_dim], Distribution.stdNormal, TorchDevice.cpu⟩

/-- Embedding of `Tensor.to(device)`. -/
def tensor_to_device (t : NoiseTensor) (d : TorchDevice) : NoiseTensor :=
  { t with device := d }

/-- Embedding of `get_noise(n_samples, z_dim, device)`:
`torch.randn(n_samples, z_dim).to(device)`. -/
def get_noise (n_samples z_dim : Nat) (device : TorchDevice) : NoiseTensor :=
  tensor_to_device (torch_randn n_samples z_dim) device

/-- The latent dimension recorded by a noise-sampling event, if the event
is one. -/
def noiseDim : Event → Option Nat
  | Event.noiseSample _ z => some z
  | _ => none

/-- Observable events of `main`, in addition to the training-loop events
it contains: directory creation, seeding, dataset loading, model and
optimizer construction, the prints, the animation save performed by
`show_animation_fake_images`, and the final print. -/
inductive MainEvent where
  | makedirsResults : MainEvent
  | manualSeed (seed : Nat) : MainEvent
  | datasetLoad : MainEvent
  | printStarted : MainEvent
  | buildGenerator : MainEvent
  | genOptimizerInit : MainEvent
  | buildDiscriminator : MainEvent
  | discOptimizerInit : MainEvent
  | printConfig : MainEvent
  | criterionInit : MainEvent
  | trainEv (e : Event) : MainEvent
  | animationSaved : MainEvent
  | printCompleted : MainEvent
deriving DecidableEq

/-- The events of `main` before `training_loop` is entered, in source
order. -/
def mainSetupEvents : List MainEvent :=
  [MainEvent.makedirsResults,
   MainEvent.manualSeed SEED,
   MainEvent.datasetLoad,
   MainEvent.printStarted,
   MainEvent.buildGenerator,
   MainEvent.genOptimizerInit,
   MainEvent.buildDiscriminator,
   MainEvent.discOptimizerInit,
   MainEvent.printConfig,
   MainEvent.criterionInit]

/-- The event trace of `main()`: setup, then
`training_loop(..., N_EPOCHS, DISPLAY_STEP)` run to completion, then
`show_animation_fake_images()` (which saves the animated GIF), then the
final print.  `batches` lists the sizes of the batches the MNIST
dataloader yields in one epoch. -/
def main_trace (batches : List Nat) : List MainEvent :=
  mainSetupEvents ++
  (training_loop N_EPOCHS DISPLAY_STEP batches).map MainEvent.trainEv ++
  [MainEvent.animationSaved, MainEvent.printCompleted]

/-- Predicate answering whether a main event is not the animation save. -/
def notAnimation : MainEvent → Bool
  | MainEvent.animationSaved => false
  | _ => true

/-- Predicate answering whether a main event is a training-loop event. -/
def isTrainEv : MainEvent → Bool
  | MainEvent.trainEv _ => true
  | _ => false

/-- A file-system path as a directory (a list of components relative to
the working directory) plus a file name. -/
structure FSPath where
  dir : List String
  file : String
deriving DecidableEq

/-- The results directory `RESULTS = os.path.join(os.getcwd(), 'results',
'GAN')`, as components relative to the working directory. -/
def RESULTS_DIR : List String := ["results", "GAN"]

/-- The dataset cache path `PATH_DATASET = os.path.join('data',
'DATASET')`. -/
def PATH_DATASET : List String := ["data", "DATASET"]

/-- The name of the snapshot file `store_tensor_images` saves at a given
step: `f'fake_images_step_{current_step}.png'` (with `label =
'fake_images'`). -/
def snapshot_filename (step : Nat) : String :=
  "fake_images_step_" ++ toString step ++ ".png"

/-- The name of the animation file `show_animation_fake_images` saves. -/
def animation_filename : String :=
  "replay_fake_images_gan.gif"

/-- A path lies under a directory when that directory is an initial
segment of its directory components. -/
def underDir (d : List String) (p : FSPath) : Prop :=
  ∃ rest, p.dir = d ++ rest

/-- The files written by each event of `main`.  Snapshot events write the
snapshot file into the results directory; the animation save writes the
GIF into the results directory; the dataset load writes whatever files
the external MNIST downloader writes (given as `dataset_files`); no other
event writes a file. -/
def event_writes (dataset_files : List FSPath) : MainEvent → List FSPath
  | MainEvent.trainEv (Event.snapshot s) => [⟨RESULTS_DIR, snapshot_filename s⟩]
  | MainEvent.animationSaved => [⟨RESULTS_DIR, animation_filename⟩]
  | MainEvent.datasetLoad => dataset_files
  | _ => []

/-- All files written during a run of `main`. -/
def script_writes (batches : List Nat) (dataset_files : List FSPath) : List FSPath :=
  (main_trace batches).flatMap (event_writes dataset_files)

/-- The script run as a program: the behaviour of `main()` as a function
of the process argument vector.  The source never reads `sys.argv` (it
has no imports or uses of `sys` or `argparse`), so its embedding takes
the argument vector as an unused parameter. -/
def script_output (_argv : List String) (batches : List Nat) : List MainEvent :=
  main_trace batches

/-- The outcomes of the external library calls `main` performs, in source
order, each either succeeding or raising an exception of type `ε`.  The
training call stands for the whole `training_loop` invocation (including
every batch's device computations), and the animation call for
`show_animation_fake_images` (including its file input and output). -/
structure ExternalCalls (ε : Type) where
  makedirs : Except ε Unit
  manualSeed : Except ε Unit
  datasetLoad : Except ε Unit
  buildGenerator : Except ε Unit
  genOptimizerInit : Except ε Unit
  buildDiscriminator : Except ε Unit
  discOptimizerInit : Except ε Unit
  criterionInit : Except ε Unit
  runTraining : Except ε Unit
  showAnimation : Except ε Unit

/-- The external calls of `main` as the sequence in which `main` performs
them. -/
def mainCalls {ε : Type} (c : ExternalCalls ε) : List (Except ε Unit) :=
  [c.makedirs, c.manualSeed, c.datasetLoad, c.buildGenerator,
   c.genOptimizerInit, c.buildDiscriminator, c.discOptimizerInit,
   c.criterionInit, c.runTraining, c.showAnimation]

/-- Run a sequence of fallible calls in order, stopping at the first
exception.  The script contains no `try`/`except`, so this is the exact
control flow of `main`: each call either succeeds and control moves to
the next statement, or raises and the exception propagates. -/
def runSeq {ε : Type} : List (Except ε Unit) → Except ε Unit
  | [] => Except.ok ()
  | Except.error e :: _ => Except.error e
  | Except.ok _ :: xs => runSeq xs

/-- The result of `main` given the outcomes of its external calls. -/
def main_run {ε : Type} (c : ExternalCalls ε) : Except ε Unit :=
  runSeq (mainCalls c)

/-- Split a list into consecutive chunks of `k` elements, with explicit
fuel so the recursion is structural; with `fuel ≥ xs.length` and `0 < k`
this is the reshape `view(-1, k)` performs on the flattened data. -/
def chunkFuel {α : Type} (k : Nat) : Nat → List α → List (List α)
  | 0, _ => []
  | _ + 1, [] => []
  | fuel + 1, x :: xs => (x :: xs).take k :: chunkFuel k fuel ((x :: xs).drop k)

/-- Embedding of `image_tensor.detach().cpu().view(-1, *size)` over the
flattened tensor data: it succeeds exactly when the element count is a
multiple of the product of `size`, and then yields the list of images,
each a consecutive block of `size_prod` elements. -/
def tensor_view {α : Type} (size_prod : Nat) (data : List α) : Option (List (List α)) :=
  if data.length % size_prod = 0 then
    some (chunkFuel size_prod data.length data)
  else none

/-- The grid `make_grid(image_unflat[:num_images], nrow=5)` saves: the
images it contains, the row width, and the per-image shape. -/
structure ImageGrid (α : Type) where
  images : List (List α)
  nrow : Nat
  image_size : Nat × Nat × Nat
deriving DecidableEq

/-- Embedding of `store_tensor_images(image_tensor, label, current_step,
num_images=25, size=(1, 28, 28))` over the flattened tensor data:
`view(-1, 1, 28, 28)` followed by `make_grid(image_unflat[:num_images],
nrow=5)`.  The `label` and `current_step` arguments only name the output
file and are modelled by `event_writes`. -/
def store_tensor_images {α : Type} (num_images : Nat) (image_tensor : List α) :
    Option (ImageGrid α) :=
  (tensor_view (1 * 28 * 28) image_tensor).map
    (fun image_unflat => ⟨image_unflat.take num_images, 5, (1, 28, 28)⟩)

/-- Embedding of Python `s.split(sep)` for a single-character separator,
over a Python string modelled as its character list: the result always
has at least one (possibly empty) segment. -/
def splitOnChar (sep : Char) : List Char → List (List Char)
  | [] => [[]]
  | c :: cs =>
      match splitOnChar sep cs with
      | [] => [[c]]
      | h :: t => if c = sep then [] :: h :: t else (c :: h) :: t

/-- Embedding of Python `s.split(sep)[0]` for a non-empty multi-character
separator: the characters strictly before the first occurrence of `sep`,
or the whole string when `sep` does not occur. -/
def takeBeforeSub (sep : List Char) : List Char → List Char
  | [] => []
  | c :: cs => if sep.isPrefixOf (c :: cs) then [] else c :: takeBeforeSub sep cs

/-- Embedding of Python `int(s)` on the digit strings the snapshot
filenames contain: the numeric value of a non-empty all-digit string,
`none` (an exception in Python) otherwise. -/
def parseDigits (s : List Char) : Option Nat :=
  if s ≠ [] ∧ s.all Char.isDigit then
    some (s.foldl (fun acc c => acc * 10 + (c.toNat - 48)) 0)
  else none

/-- The character constant the sort key splits on first. -/
def underscoreChar : Char := '_'

/-- The separator the sort key splits on second, `.png`. -/
def pngSuffix : List Char := ['.', 'p', 'n', 'g']

/-- Embedding of the sort key
`lambda s: int(s.split('_')[-1].split('.png')[0])` from
`show_animation_fake_images`: the integer value of the digits between the
final underscore of the path and the following `.png`. -/
def python_sort_key (s : List Char) : Option Nat :=
  parseDigits (takeBeforeSub pngSuffix ((splitOnChar underscoreChar s).getLastD []))

/-- The numeric value of the sort key; meaningful when the key parses. -/
def keyNum (s : List Char) : Nat :=
  (python_sort_key s).getD 0

/-- Embedding of
`sorted(glob.glob(f'{RESULTS}/fake_*.png'), key=lambda s: ...)` applied to
the list of globbed snapshot paths: Python `sorted` is a stable sort by
the key, and a stable sort by a total key is extensionally unique, so it
is embedded as a stable insertion sort by the numeric key; when some path
fails to parse, Python `int` raises, embedded as `none`. -/
def sorted_fake_images (files : List (List Char)) : Option (List (List Char)) :=
  if files.all (fun f => (python_sort_key f).isSome) then
    some (List.insertionSort (fun a b => keyNum a ≤ keyNum b) files)
  else none

/-- The snapshot path for step 500 under the results directory, as the
glob returns it. -/
def fake_step_500_path : List Char :=
  ("results/GAN/fake_images_step_500.png").toList

/-- The snapshot path for step 1000 under the results directory, as the
glob returns it. -/
def fake_step_1000_path : List Char :=
  ("results/GAN/fake_images_step_1000.png").toList

theorem filter_batchEvents (ds c b : Nat) :
    (batchEvents ds c b).filter isUpdateEvent = updatePattern := by
  unfold batchEvents
  split <;> rfl

theorem length_runBatches_snd (ds c : Nat) (bs : List Nat) :
    (runBatches ds c bs).2 = c + bs.length := by
  induction bs generalizing c with
  | nil => rfl
  | cons b bs ih =>
      simp only [runBatches, ih, List.length_cons]
      omega

theorem length_runEpochs_snd (ds : Nat) (bs : List Nat) (n c : Nat) :
    (runEpochs ds bs n c).2 = c + n * bs.length := by
  induction n generalizing c with
  | zero => simp [runEpochs]
  | succ n ih =>
      simp only [runEpochs, ih, length_runBatches_snd, Nat.succ_mul]
      omega

theorem filter_runBatches (ds c : Nat) (bs : List Nat) :
    (runBatches ds c bs).1.filter isUpdateEvent
      = (List.replicate bs.length updatePattern).flatten := by
  induction bs generalizing c with
  | nil => rfl
  | cons b bs ih =>
      simp only [runBatches, List.filter_append, filter_batchEvents, ih,
        List.length_cons, List.replicate_succ, List.flatten_cons]

theorem filter_runEpochs (ds : Nat) (bs : List Nat) (n c : Nat) :
    (runEpochs ds bs n c).1.filter isUpdateEvent
      = (List.replicate (n * bs.length) updatePattern).flatten := by
  induction n generalizing c with
  | zero => simp [runEpochs]
  | succ n ih =>
      simp only [runEpochs, List.filter_append, filter_runBatches, ih,
        Nat.succ_mul, Nat.add_comm, List.replicate_add, List.flatten_append]

/-- Claim C1: in every batch of every epoch the discriminator is updated
before the generator, in the order zero-grad, loss, backward, step for
the discriminator and then zero-grad, loss, backward, step for the
generator, and this alternation happens exactly once per batch: the
optimizer-update events of the whole training loop are exactly
`n_epochs * batches.length` copies of the per-batch pattern, one per
batch, in order. -/
theorem training_loop_alternation (n_epochs display_step : Nat) (batches : List Nat) :
    (training_loop n_epochs display_step batches).filter isUpdateEvent
      = (List.replicate (n_epochs * batches.length) updatePattern).flatten :=
  filter_runEpochs display_step batches n_epochs 0

theorem snapshot_mem_batchEvents (ds c b s : Nat) :
    Event.snapshot s ∈ batchEvents ds c b ↔ (s = c ∧ c % ds = 0 ∧ 0 < c) := by
  by_cases h : c % ds = 0 ∧ 0 < c
  · simp [batchEvents, h, h.1, h.2]
  · simp only [batchEvents, if_neg h, List.append_nil, List.mem_cons,
      List.not_mem_nil, or_false]
    constructor
    · rintro (h' | h' | h' | h' | h' | h' | h' | h' | h' | h') <;> cases h'
    · rintro ⟨rfl, hc1, hc2⟩
      exact absurd ⟨hc1, hc2⟩ h

theorem snapshot_mem_runBatches (ds s : Nat) (bs : List Nat) (c : Nat) :
    Event.snapshot s ∈ (runBatches ds c bs).1 ↔
      (s % ds = 0 ∧ 0 < s ∧ c ≤ s ∧ s < c + bs.length) := by
  induction bs generalizing c with
  | nil =>
      simp only [runBatches, List.not_mem_nil, false_iff]
      rintro ⟨-, -, h1, h2⟩
      simp only [List.length_nil] at h2
      omega
  | cons b bs ih =>
      simp only [runBatches, List.mem_append, snapshot_mem_batchEvents, ih,
        List.length_cons]
      constructor
      · rintro (⟨rfl, h1, h2⟩ | ⟨h1, h2, h3, h4⟩)
        · exact ⟨h1, h2, Nat.le_refl _, by omega⟩
        · exact ⟨h1, h2, by omega, by omega⟩
      · rintro ⟨h1, h2, h3, h4⟩
        rcases Nat.lt_or_ge c s with hlt | hge
        · exact Or.inr ⟨h1, h2, by omega, by omega⟩
        · have hsc : s = c := Nat.le_antisymm hge h3
          subst hsc
          exact Or.inl ⟨rfl, h1, h2⟩

theorem snapshot_mem_runEpochs (ds s : Nat) (bs : List Nat) (n c : Nat) :
    Event.snapshot s ∈ (runEpochs ds bs n c).1 ↔
      (s % ds = 0 ∧ 0 < s ∧ c ≤ s ∧ s < c + n * bs.length) := by
  induction n generalizing c with
  | zero =>
      simp only [runEpochs, List.not_mem_nil, false_iff]
      rintro ⟨-, -, h1, h2⟩
      simp only [Nat.zero_mul] at h2
      omega
  | succ n ih =>
      simp only [runEpochs, List.mem_append, snapshot_mem_runBatches, ih,
        length_runBatches_snd, Nat.succ_mul]
      constructor
      · rintro (⟨h1, h2, h3, h4⟩ | ⟨h1, h2, h3, h4⟩)
        · exact ⟨h1, h2, h3, by omega⟩
        · exact ⟨h1, h2, by omega, by omega⟩
      · rintro ⟨h1, h2, h3, h4⟩
        rcases Nat.lt_or_ge s (c + bs.length) with hlt | hge
        · exact Or.inl ⟨h1, h2, h3, hlt⟩
        · exact Or.inr ⟨h1, h2, by omega, by omega⟩

/-- Claim C2: a `fake_images` snapshot is stored at step `s` if and only
if `s` is a multiple of `display_step`, strictly positive, and a step that
actually occurs (`s < n_epochs * batches.length`, since `cur_step` starts
at `0` and increments once per batch); in particular no snapshot is
written at step `0`, and if the total number of batches processed is at
most `display_step` no snapshot is ever written. -/
theorem training_loop_snapshot_iff (n_epochs display_step : Nat) (batches : List Nat)
    (s : Nat) :
    (Event.snapshot s ∈ training_loop n_epochs display_step batches ↔
      (s % display_step = 0 ∧ 0 < s ∧ s < n_epochs * batches.length)) ∧
    (n_epochs * batches.length ≤ display_step →
      Event.snapshot s ∉ training_loop n_epochs display_step batches) := by
  have hmem := snapshot_mem_runEpochs display_step s batches n_epochs 0
  constructor
  · rw [training_loop, hmem]
    constructor
    · rintro ⟨h1, h2, -, h4⟩
      exact ⟨h1, h2, by omega⟩
    · rintro ⟨h1, h2, h3⟩
      exact ⟨h1, h2, Nat.zero_le _, by omega⟩
  · intro htot hs
    rw [training_loop, hmem] at hs
    obtain ⟨h1, h2, -, h4⟩ := hs
    have hds : 0 < display_step := by omega
    have hlt : s < display_step := by omega
    rw [Nat.mod_eq_of_lt hlt] at h1
    omega

/-- Witness for C2 at a concrete input: with `display_step = 2` and four
batches in one epoch, a snapshot is written at step 2. -/
theorem training_loop_snapshot_iff_witness :
    Event.snapshot 2 ∈ training_loop 1 2 [9, 9, 9, 9] :=
  ((training_loop_snapshot_iff 1 2 [9, 9, 9, 9] 2).1).mpr (by decide)

/-- Claim C3: every linear transformation in the generator (one per
generator block plus the output layer, five in total) is an
`AnalogLinear` layer, and every linear transformation in the
discriminator (one per discriminator block plus the output layer, four in
total) is a standard `nn.Linear` layer — for any instantiation of the
dimension parameters. -/
theorem generator_analog_discriminator_dense (z_dim im_dim hidden_dim : Nat) :
    (generator_layers z_dim im_dim hidden_dim).filter isLinearTransform
      = [Layer.analogLinear z_dim hidden_dim,
         Layer.analogLinear hidden_dim (hidden_dim * 2),
         Layer.analogLinear (hidden_dim * 2) (hidden_dim * 4),
         Layer.analogLinear (hidden_dim * 4) (hidden_dim * 8),
         Layer.analogLinear (hidden_dim * 8) im_dim] ∧
    (discriminator_layers im_dim hidden_dim).filter isLinearTransform
      = [Layer.nnLinear im_dim (hidden_dim * 4),
         Layer.nnLinear (hidden_dim * 4) (hidden_dim * 2),
         Layer.nnLinear (hidden_dim * 2) hidden_dim,
         Layer.nnLinear hidden_dim 1] :=
  ⟨rfl, rfl⟩

theorem noise_all_batchEvents (ds c b : Nat) :
    (batchEvents ds c b).all (fun e => noiseDim e = none ∨ noiseDim e = some Z_DIM) := by
  unfold batchEvents
  split <;> rfl

theorem noise_all_runBatches (ds c : Nat) (bs : List Nat) :
    (runBatches ds c bs).1.all
      (fun e => noiseDim e = none ∨ noiseDim e = some Z_DIM) := by
  induction bs generalizing c with
  | nil => rfl
  | cons b bs ih =>
      simp only [runBatches, List.all_append, Bool.and_eq_true]
      exact ⟨noise_all_batchEvents ds c b, ih (c + 1)⟩

theorem noise_all_runEpochs (ds : Nat) (bs : List Nat) (n c : Nat) :
    (runEpochs ds bs n c).1.all
      (fun e => noiseDim e = none ∨ noiseDim e = some Z_DIM) := by
  induction n generalizing c with
  | zero => rfl
  | succ n ih =>
      simp only [runEpochs, List.all_append, Bool.and_eq_true]
      exact ⟨noise_all_runBatches ds c bs, ih _⟩

/-- Claim C7: `get_noise(n_samples, z_dim, device)` returns a tensor of
shape `(n_samples, z_dim)` whose entries are drawn from the standard
normal distribution, placed on the given device; and every noise-sampling
event of the training loop uses latent dimension `Z_DIM = 64`. -/
theorem get_noise_spec (n_samples z_dim : Nat) (device : TorchDevice)
    (n_epochs display_step : Nat) (batches : List Nat) :
    (get_noise n_samples z_dim device).shape = [n_samples, z_dim] ∧
    (get_noise n_samples z_dim device).dist = Distribution.stdNormal ∧
    (get_noise n_samples z_dim device).device = device ∧
    Z_DIM = 64 ∧
    (training_loop n_epochs display_step batches).all
      (fun e => noiseDim e = none ∨ noiseDim e = some Z_DIM) :=
  ⟨rfl, rfl, rfl, rfl, noise_all_runEpochs display_step batches n_epochs 0⟩

theorem takeWhile_append_of_all {α : Type} (p : α → Bool) (l1 l2 : List α)
    (h : ∀ x ∈ l1, p x = true) :
    (l1 ++ l2).takeWhile p = l1 ++ l2.takeWhile p := by
  induction l1 with
  | nil => rfl
  | cons a l1 ih =>
      have ha : p a = true := h a (List.mem_cons_self a l1)
      simp only [List.cons_append, List.takeWhile_cons, ha, if_true]
      rw [ih fun x hx => h x (List.mem_cons_of_mem a hx)]

theorem filter_map_trainEv (l : List Event) :
    (l.map MainEvent.trainEv).filter isTrainEv = l.map MainEvent.trainEv := by
  induction l with
  | nil => rfl
  | cons a l ih => simp only [List.map_cons, List.filter_cons, isTrainEv, if_true]; rw [ih]

/-- Claim C5: the animated preview is assembled strictly after training
completes: `main` contains exactly one animation-save event, and every
event of the full `training_loop` trace (all `N_EPOCHS` epochs) occurs
strictly before it — the part of the `main` trace before the first
animation-save already contains the complete training trace. -/
theorem main_animation_after_training (batches : List Nat) :
    ((main_trace batches).takeWhile notAnimation).filter isTrainEv
      = (training_loop N_EPOCHS DISPLAY_STEP batches).map MainEvent.trainEv ∧
    (main_trace batches).count MainEvent.animationSaved = 1 := by
  constructor
  · rw [main_trace, List.append_assoc,
      takeWhile_append_of_all notAnimation mainSetupEvents _ (by decide),
      takeWhile_append_of_all notAnimation _ _
        (by rintro x hx; obtain ⟨e, -, rfl⟩ := List.mem_map.mp hx; rfl)]
    have htail :
        ([MainEvent.animationSaved, MainEvent.printCompleted].takeWhile notAnimation)
          = [] := rfl
    rw [htail, List.append_nil, List.filter_append, filter_map_trainEv]
    have hsetup : mainSetupEvents.filter isTrainEv = [] := rfl
    rw [hsetup, List.nil_append]
  · rw [main_trace]
    simp only [List.count_append]
    have h1 : mainSetupEvents.count MainEvent.animationSaved = 0 := rfl
    have h2 :
        ((training_loop N_EPOCHS DISPLAY_STEP batches).map MainEvent.trainEv).count
          MainEvent.animationSaved = 0 := by
      rw [List.count_eq_zero]
      rintro hmem
      obtain ⟨e, -, he⟩ := List.mem_map.mp hmem
      cases he
    rw [h1, h2]
    rfl

theorem event_writes_spec (dataset_files : List FSPath)
    (hds : ∀ p ∈ dataset_files, underDir PATH_DATASET p)
    (e : MainEvent) (p : FSPath) (hp : p ∈ event_writes dataset_files e) :
    (p.dir = RESULTS_DIR ∧
      (p.file = animation_filename ∨ ∃ s, p.file = snapshot_filename s)) ∨
    underDir PATH_DATASET p := by
  cases e with
  | trainEv ev =>
      cases ev with
      | snapshot s =>
          simp only [event_writes, List.mem_singleton] at hp
          subst hp
          exact Or.inl ⟨rfl, Or.inr ⟨s, rfl⟩⟩
      | discZeroGrad => cases hp
      | noiseSample n z => cases hp
      | discLossComputed => cases hp
      | discBackward => cases hp
      | discStep => cases hp
      | genZeroGrad => cases hp
      | genLossComputed => cases hp
      | genBackward => cases hp
      | genStep => cases hp
      | printProgress s => cases hp
  | animationSaved =>
      simp only [event_writes, List.mem_singleton] at hp
      subst hp
      exact Or.inl ⟨rfl, Or.inl rfl⟩
  | datasetLoad => exact Or.inr (hds p hp)
  | makedirsResults => cases hp
  | manualSeed s => cases hp
  | printStarted => cases hp
  | buildGenerator => cases hp
  | genOptimizerInit => cases hp
  | buildDiscriminator => cases hp
  | discOptimizerInit => cases hp
  | printConfig => cases hp
  | criterionInit => cases hp
  | printCompleted => cases hp

/-- Claim C6: assuming the external dataset downloader writes only under
the dataset cache path `data/DATASET`, every file written during a run of
`main` is either in the results directory `results/GAN` — and then it is
a snapshot named `fake_images_step_<N>.png` or the animation
`replay_fake_images_gan.gif` — or under the dataset cache path; no file
outside these two locations is written. -/
theorem main_writes_confined (batches : List Nat) (dataset_files : List FSPath)
    (hds : ∀ p ∈ dataset_files, underDir PATH_DATASET p) :
    ∀ p ∈ script_writes batches dataset_files,
      (p.dir = RESULTS_DIR ∧
        (p.file = animation_filename ∨ ∃ s, p.file = snapshot_filename s)) ∨
      underDir PATH_DATASET p := by
  intro p hp
  rw [script_writes, List.mem_flatMap] at hp
  obtain ⟨e, -, hpe⟩ := hp
  exact event_writes_spec dataset_files hds e p hpe

/-- Witness for C6 at a concrete input: with no batches and one dataset
file, the animation file written by `main` is confined as stated. -/
theorem main_writes_confined_witness :
    ((⟨RESULTS_DIR, animation_filename⟩ : FSPath).dir = RESULTS_DIR ∧
      ((⟨RESULTS_DIR, animation_filename⟩ : FSPath).file = animation_filename ∨
        ∃ s, (⟨RESULTS_DIR, animation_filename⟩ : FSPath).file = snapshot_filename s)) ∨
    underDir PATH_DATASET ⟨RESULTS_DIR, animation_filename⟩ :=
  main_writes_confined [] [⟨PATH_DATASET ++ [("MNIST" : String)], ("raw" : String)⟩]
    (fun p hp => by
      rw [List.mem_singleton] at hp
      exact ⟨[("MNIST" : String)], by rw [hp]⟩)
    ⟨RESULTS_DIR, animation_filename⟩
    (by
      rw [script_writes, List.mem_flatMap]
      exact ⟨MainEvent.animationSaved, by simp [main_trace],
        List.mem_singleton.mpr rfl⟩)

/-- Claim C8: the script's behaviour is independent of the command-line
argument vector: any two invocations with different arguments but the
same environment (here, the same dataloader batches) produce identical
traces. -/
theorem script_output_ignores_argv (argv1 argv2 : List String) (batches : List Nat) :
    script_output argv1 batches = script_output argv2 batches :=
  rfl

theorem runSeq_error_iff {ε : Type} (xs : List (Except ε Unit)) (e : ε) :
    runSeq xs = Except.error e ↔
      ∃ l r, xs = l ++ Except.error e :: r ∧ ∀ x ∈ l, x = Except.ok () := by
  induction xs with
  | nil =>
      simp only [runSeq]
      constructor
      · rintro h
        cases h
      · rintro ⟨l, r, hl, -⟩
        exact absurd hl (List.append_ne_nil_of_right_ne_nil l (List.cons_ne_nil _ r)).symm
  | cons x xs ih =>
      cases x with
      | error e' =>
          simp only [runSeq]
          constructor
          · rintro h
            injection h with h
            subst h
            exact ⟨[], xs, rfl, by rintro x hx; cases hx⟩
          · rintro ⟨l, r, hl, hok⟩
            cases l with
            | nil =>
                injection hl with h1 h2
            | cons y l =>
                injection hl with h1 h2
                have := hok y (List.mem_cons_self y l)
                rw [this] at h1
                cases h1
      | ok u =>
          cases u
          simp only [runSeq, ih]
          constructor
          · rintro ⟨l, r, hl, hok⟩
            refine ⟨Except.ok () :: l, r, by rw [hl, List.cons_append], ?_⟩
            rintro x hx
            rcases List.mem_cons.mp hx with rfl | hx
            · rfl
            · exact hok x hx
          · rintro ⟨l, r, hl, hok⟩
            cases l with
            | nil => cases hl
            | cons y l =>
                injection hl with h1 h2
                exact ⟨l, r, h2, fun x hx => hok x (List.mem_cons_of_mem y hx)⟩

/-- Claim C4: `main` returns an exception `e` exactly when some external
call raises `e` and every call sequenced before it succeeded: the first
failure propagates out of `main` unmodified, and is never caught,
re-classified, retried, or suppressed. -/
theorem main_error_propagation {ε : Type} (c : ExternalCalls ε) (e : ε) :
    main_run c = Except.error e ↔
      ∃ l r, mainCalls c = l ++ Except.error e :: r ∧ ∀ x ∈ l, x = Except.ok () :=
  runSeq_error_iff (mainCalls c) e

/-- Witness for C4 at a concrete input: when the dataset download raises
exception `3` (with the two calls before it succeeding), `main` terminates
with exactly that exception. -/
theorem main_error_propagation_witness :
    main_run
      (⟨Except.ok (), Except.ok (), Except.error 3, Except.ok (), Except.ok (),
        Except.ok (), Except.ok (), Except.ok (), Except.ok (), Except.ok ()⟩ :
        ExternalCalls Nat) = Except.error 3 :=
  (main_error_propagation _ 3).mpr
    ⟨[Except.ok (), Except.ok ()], _, rfl, by
      intro x hx
      rcases List.mem_cons.mp hx with rfl | hx
      · rfl
      · rcases List.mem_cons.mp hx with rfl | hx
        · rfl
        · cases hx⟩

theorem chunkFuel_mul_length {α : Type} (k : Nat) (hk : 0 < k) :
    ∀ (fuel : Nat) (xs : List α), xs.length ≤ fuel → k ∣ xs.length →
      k * (chunkFuel k fuel xs).length = xs.length := by
  intro fuel
  induction fuel with
  | zero =>
      intro xs hlen _
      rw [Nat.le_zero] at hlen
      rw [List.eq_nil_of_length_eq_zero hlen]
      cases k with
      | zero => exact absurd rfl (Nat.ne_of_gt hk)
      | succ k => simp [chunkFuel]
  | succ fuel ih =>
      intro xs hlen hdvd
      cases xs with
      | nil => simp [chunkFuel]
      | cons x xs =>
          have hpos : 0 < (x :: xs).length := by simp
          have hkle : k ≤ (x :: xs).length := Nat.le_of_dvd hpos hdvd
          have hdroplen : ((x :: xs).drop k).length = (x :: xs).length - k := by
            rw [List.length_drop]
          have hrec := ih ((x :: xs).drop k)
            (by rw [hdroplen]; simp only [List.length_cons] at hlen ⊢; omega)
            (by rw [hdroplen]; exact Nat.dvd_sub' hdvd (Nat.dvd_refl k))
          simp only [chunkFuel, List.length_cons, Nat.mul_add, Nat.mul_one]
          rw [hdroplen] at hrec
          simp only [List.length_cons] at hrec hkle ⊢
          omega

theorem chunkFuel_mem_length {α : Type} (k : Nat) (hk : 0 < k) :
    ∀ (fuel : Nat) (xs : List α), xs.length ≤ fuel → k ∣ xs.length →
      ∀ c ∈ chunkFuel k fuel xs, c.length = k := by
  intro fuel
  induction fuel with
  | zero =>
      intro xs hlen _ c hc
      rw [Nat.le_zero] at hlen
      rw [List.eq_nil_of_length_eq_zero hlen] at hc
      cases k with
      | zero => exact absurd rfl (Nat.ne_of_gt hk)
      | succ k => cases hc
  | succ fuel ih =>
      intro xs hlen hdvd c hc
      cases xs with
      | nil => cases hc
      | cons x xs =>
          have hpos : 0 < (x :: xs).length := by simp
          have hkle : k ≤ (x :: xs).length := Nat.le_of_dvd hpos hdvd
          simp only [chunkFuel, List.mem_cons] at hc
          rcases hc with rfl | hc
          · rw [List.length_take]
            exact Nat.min_eq_left hkle
          · refine ih ((x :: xs).drop k) ?_ ?_ c hc
            · rw [List.length_drop]
              simp only [List.length_cons] at hlen ⊢
              omega
            · rw [List.length_drop]
              exact Nat.dvd_sub' hdvd (Nat.dvd_refl k)

/-- Claim C9: for every input tensor whose flattened length is a multiple
of `1 * 28 * 28 = 784` (that is, any batch of images of that size),
`store_tensor_images` succeeds — batches larger than 25 images are
truncated, never an error — and saves a grid holding exactly the first
`min (batch_size) 25` images, arranged 5 per row, each image a
784-element block of shape `(1, 28, 28)`. -/
theorem store_tensor_images_spec {α : Type} (image_tensor : List α)
    (h : 784 ∣ image_tensor.length) :
    ∃ g : ImageGrid α,
      store_tensor_images 25 image_tensor = some g ∧
      g.images.length = min (image_tensor.length / 784) 25 ∧
      (∀ img ∈ g.images, img.length = 784) ∧
      g.images =
        (chunkFuel 784 image_tensor.length image_tensor).take 25 ∧
      g.nrow = 5 ∧
      g.image_size = (1, 28, 28) := by
  have hmod : image_tensor.length % (1 * 28 * 28) = 0 := by
    obtain ⟨m, hm⟩ := h
    rw [hm]
    norm_num
  have hlen784 : 784 * (chunkFuel 784 image_tensor.length image_tensor).length
      = image_tensor.length :=
    chunkFuel_mul_length 784 (by norm_num) image_tensor.length image_tensor
      (Nat.le_refl _) h
  refine ⟨⟨(chunkFuel 784 image_tensor.length image_tensor).take 25, 5, (1, 28, 28)⟩,
    ?_, ?_, ?_, rfl, rfl, rfl⟩
  · rw [store_tensor_images, tensor_view, if_pos hmod]
    rfl
  · rw [List.length_take]
    omega
  · intro img himg
    exact chunkFuel_mem_length 784 (by norm_num) image_tensor.length image_tensor
      (Nat.le_refl _) h img (List.mem_of_mem_take himg)

/-- Witness for C9 at a concrete input: a flattened batch of two 784-pixel
images is stored as a grid without error. -/
theorem store_tensor_images_spec_witness :
    ∃ g : ImageGrid Nat,
      store_tensor_images 25 (List.replicate 1568 0) = some g ∧
      g.images.length = min ((List.replicate 1568 (0 : Nat)).length / 784) 25 ∧
      (∀ img ∈ g.images, img.length = 784) ∧
      g.images =
        (chunkFuel 784 (List.replicate 1568 (0 : Nat)).length
          (List.replicate 1568 0)).take 25 ∧
      g.nrow = 5 ∧
      g.image_size = (1, 28, 28) :=
  store_tensor_images_spec (List.replicate 1568 0)
    (by rw [List.length_replicate]; exact ⟨2, rfl⟩)

/-- Claim C10: `show_animation_fake_images` orders the animation frames
by the integer step parsed from each snapshot path — the digits between
the final underscore and `.png` — sorted numerically (a permutation of
the input that is pairwise non-decreasing in the parsed step), not
lexicographically: the key of the step-500 path is 500 and of the
step-1000 path is 1000, and the frame for step 1000 is ordered after the
frame for step 500 even though the string `"1000"` precedes `"500"`
lexicographically. -/
theorem show_animation_frame_order :
    (∀ files sortedFiles : List (List Char),
      sorted_fake_images files = some sortedFiles →
        sortedFiles.Perm files ∧
        sortedFiles.Sorted (fun a b => keyNum a ≤ keyNum b)) ∧
    python_sort_key fake_step_500_path = some 500 ∧
    python_sort_key fake_step_1000_path = some 1000 ∧
    sorted_fake_images [fake_step_1000_path, fake_step_500_path]
      = some [fake_step_500_path, fake_step_1000_path] := by
  refine ⟨?_, by decide, by decide, by decide⟩
  intro files sortedFiles h
  rw [sorted_fake_images] at h
  split at h
  · injection h with h
    subst h
    haveI : IsTotal (List Char) (fun a b => keyNum a ≤ keyNum b) :=
      ⟨fun a b => Nat.le_total _ _⟩
    haveI : IsTrans (List Char) (fun a b => keyNum a ≤ keyNum b) :=
      ⟨fun a b c => Nat.le_trans⟩
    exact ⟨List.perm_insertionSort _ files, List.sorted_insertionSort _ files⟩
  · cases h

/-- Witness for C10 at a concrete input: the sorted order of the step-1000
and step-500 snapshot paths is a permutation of the glob result, pairwise
non-decreasing in the parsed step. -/
theorem show_animation_frame_order_witness :
    ([fake_step_500_path, fake_step_1000_path] : List (List Char)).Perm
      [fake_step_1000_path, fake_step_500_path] ∧
    ([fake_step_500_path, fake_step_1000_path] : List (List Char)).Sorted
      (fun a b => keyNum a ≤ keyNum b) :=
  show_animation_frame_order.1 [fake_step_1000_path, fake_step_500_path]
    [fake_step_500_path, fake_step_1000_path] (by decide)

end MnistGan

